import Mathlib

/-!
Verification development for the GladTeX formula image cache
(`src/gleetex/caching.py`).

The Python module is embedded shallowly:

* strings are `String` / `List Char`;
* `str.replace` for the concrete one- and two-character patterns used by
  `normalize_formula` is embedded by `replace1` (single character pattern,
  a `map`) and `replace2` (two character pattern, the usual left-to-right,
  non-overlapping scan that Python's `str.replace` performs);
* `str.rstrip()` / `str.lstrip()` (no argument: strip whitespace) are
  embedded by `rstripL` / `lstripL` over the ASCII whitespace characters
  Python strips;
* the filesystem is an explicit record `FS`: the list of existing regular
  files plus the (parsed) content of each file, so `os.path.exists`,
  `os.remove`, `os.listdir` and reading/writing the JSON cache file become
  pure operations;
* the in-memory `dict` `self.__cache` is an association list with Python's
  dict semantics: assignment replaces the value at an existing key in
  place or appends a new key, `del` removes the key, `in`/`[]` look the
  key up;
* Python exceptions become the inductive `PyErr`; each method returns its
  result in `Except PyErr` together with the post-state of the object,
  which on an exception is exactly the state the Python method leaves
  behind.
-/

/-- Python whitespace characters stripped by `str.strip()` (ASCII range). -/
def isPyWs (c : Char) : Bool :=
  c == ' ' || c == '\t' || c == '\n' || c == '\r' || c == '\x0b' || c == '\x0c'

/-- `s.replace(p, r)` for a one-character pattern `p` and one-character
replacement `r`: every occurrence of `p` is replaced, i.e. a `map`. -/
def replace1 (p r : Char) (l : List Char) : List Char :=
  l.map (fun c => if c == p then r else c)

/-- `s.replace(a ++ b, r)` for a two-character pattern and one-character
replacement: Python's left-to-right, non-overlapping scan.  On a match the
scan continues after the matched pair. -/
def replace2 (a b r : Char) : List Char → List Char
  | x :: y :: rest =>
    if x == a && y == b then r :: replace2 a b r rest
    else x :: replace2 a b r (y :: rest)
  | l => l

/-- `s.lstrip()`: drop leading whitespace. -/
def lstripL (l : List Char) : List Char := l.dropWhile isPyWs

/-- `s.rstrip()`: drop trailing whitespace. -/
def rstripL (l : List Char) : List Char := (l.reverse.dropWhile isPyWs).reverse

/-- `normalize_formula` on character lists, mirroring
`formula.replace('\x7b\x7d', ' ').replace('\t', ' ').replace('  ', ' ').rstrip().lstrip()`. -/
def normalizeL (l : List Char) : List Char :=
  lstripL (rstripL (replace2 ' ' ' ' ' ' (replace1 '\t' ' ' (replace2 '\x7b' '\x7d' ' ' l))))

/-- `normalize_formula` from `caching.py`. -/
def normalize_formula (s : String) : String := ⟨normalizeL s.data⟩

/-- Does the list contain the two characters `a`, `b` adjacently (i.e. does
the string contain the two-character substring `a ++ b`)? -/
def hasPair (a b : Char) : List Char → Bool
  | x :: y :: rest => (x == a && y == b) || hasPair a b (y :: rest)
  | _ => false

/-! ## Paths and the filesystem model -/

/-- `posixpath.isabs`: a path is absolute iff it starts with a slash. -/
def isabsStr (p : String) : Bool := p.data.head? == some '/'

/-- `posixpath.split`: split a path into `(head, tail)` at the last slash;
the tail never contains a slash, and the head is stripped of trailing
slashes unless it consists solely of slashes. -/
def splitPath (p : String) : String × String :=
  let cs := p.data
  let tail := (cs.reverse.takeWhile (fun c => !(c == '/'))).reverse
  let headPart := cs.take (cs.length - tail.length)
  let head :=
    if headPart.all (fun c => c == '/') then headPart
    else (headPart.reverse.dropWhile (fun c => c == '/')).reverse
  (⟨head⟩, ⟨tail⟩)

/-- `posixpath.join` for two components. -/
def joinPath (a b : String) : String :=
  if b.data.head? == some '/' then b
  else if a == "" || a.data.getLast? == some '/' then a ++ b
  else a ++ "/" ++ b

/-- Positioning record (`pos`): a dictionary such as
`height/width/depth ↦ number`.  The cache treats it opaquely apart from the
Python truthiness test `not pos` (false exactly on the empty dict). -/
def Pos := List (String × Int)
deriving DecidableEq, Inhabited

/-- One cached entry: the value stored under a formula key, a dict with the
keys `pos`, `path` and `displaymath`. -/
structure CacheEntry where
  pos : Pos
  path : String
  displaymath : Bool
deriving DecidableEq

/-- A value of the in-memory cache dict: either the version string (under
the reserved key `GladTeX__cache__version`) or a formula's entry dict. -/
inductive CacheValue where
  | vstr (s : String)
  | entry (e : CacheEntry)
deriving DecidableEq

/-- The in-memory dict `self.__cache`: an association list with Python dict
semantics (unique keys, insertion order). -/
def CacheDict := List (String × CacheValue)
deriving DecidableEq, Inhabited

/-- Dict lookup `d[k]` / `k in d` (first match). -/
def lookupKey (d : CacheDict) (k : String) : Option CacheValue :=
  match d.find? (fun kv => kv.1 == k) with
  | some kv => some kv.2
  | none => none

/-- Dict assignment `d[k] = v`: replace the value at an existing key in
place, else append the new key. -/
def setKey (k : String) (v : CacheValue) : CacheDict → CacheDict
  | [] => [(k, v)]
  | (k', v') :: rest => if k' == k then (k, v) :: rest else (k', v') :: setKey k v rest

/-- Dict deletion `del d[k]`. -/
def eraseKey (k : String) (d : CacheDict) : CacheDict :=
  d.eraseP (fun kv => kv.1 == k)

/-- Python truthiness of `d.get(VERSION_STR)`: `None` and the empty string
are falsy; an entry dict (it always has three keys) is truthy. -/
def truthyVal : Option CacheValue → Bool
  | none => false
  | some (.vstr s) => !(s == "")
  | some (.entry _) => true

/-- Parsed content of an existing file, as far as the cache can observe it:
either it parses as a JSON dict of the cache's shape, or reading/parsing
it fails (`json.load` raises). -/
inductive FileData where
  | json (d : CacheDict)
  | invalid

/-- The filesystem: the existing regular files and their contents.  Paths
are compared literally as strings. -/
structure FS where
  files : List String
  content : String → FileData

/-- Python exceptions raised by the module, by exception class. -/
inductive PyErr where
  | valueError (msg : String)
  | osError (msg : String)
  | keyError (key : String)
  | typeError (msg : String)
  | jsonParserException (msg : String)
deriving DecidableEq

/-- The exception class of a raised error, as a caller distinguishes errors
programmatically (`except ValueError`, `except OSError`, ...). -/
def PyErr.cls : PyErr → String
  | .valueError _ => "ValueError"
  | .osError _ => "OSError"
  | .keyError _ => "KeyError"
  | .typeError _ => "TypeError"
  | .jsonParserException _ => "JsonParserException"

/-! ## The ImageCache class -/

/-- `CACHE_VERSION = '2.0'`. -/
def CACHE_VERSION : String := "2.0"

/-- `ImageCache.VERSION_STR`. -/
def VERSION_STR : String := "GladTeX__cache__version"

/-- The state of an `ImageCache` object: the in-memory dict `self.__cache`
and the backing path `self.__path` fixed at construction. -/
structure ImageCache where
  cache : CacheDict
  path : String
deriving DecidableEq

/-- `ImageCache.__len__`: number of entries, ignoring the version key
(`len(self.__cache) - 1`). -/
def ImageCache.len (self : ImageCache) : Int := (self.cache.length : Int) - 1

/-- `ImageCache.write`: serialize the whole dict as JSON to the backing
path, overwriting any existing file. -/
def ImageCache.write (self : ImageCache) (fs : FS) : FS :=
  ⟨if fs.files.contains self.path then fs.files else fs.files ++ [self.path],
   fun q => if q == self.path then .json self.cache else fs.content q⟩

/-- Suffix appended to every message by `raise_error` in
`ImageCache._read`. -/
def readErrSuffix : String :=
  "\nPlease delete the cache (and the images) and rerun the program."

/-- Rendering of a cache value inside the version-mismatch message (`%s` of
a Python value); for the string values the claims exercise this is the
string itself. -/
def showVal : Option CacheValue → String
  | some (.vstr s) => s
  | some (.entry _) => "<dict>"
  | none => "None"

/-- `ImageCache._read`: load the JSON dict from disk, stamp a missing or
falsy version field with the current version, and fail on a parse error or
on a version mismatch.  Returns the result together with the value of
`self.__cache` after the call — on a version mismatch the loaded dict has
already been assigned to `self.__cache` before the exception is raised. -/
def ImageCache.read (path : String) (fs : FS) (cache : CacheDict) :
    Except PyErr CacheDict × CacheDict :=
  if fs.files.contains path then
    match fs.content path with
    | .invalid =>
      -- json.load raised: self.__cache is unchanged, raise_error reports a
      -- format error (the message of the underlying exception is elided).
      (.error (.jsonParserException
        ("error while reading cache from " ++ path ++ readErrSuffix)), cache)
    | .json d =>
      -- self.__cache = json.load(file); it is a dict of the cache shape.
      let d1 := if truthyVal (lookupKey d VERSION_STR) then d
                else setKey VERSION_STR (.vstr CACHE_VERSION) d
      match lookupKey d1 VERSION_STR with
      | some (.vstr v) =>
        if v == CACHE_VERSION then (.ok d1, d1)
        else (.error (.jsonParserException
          ("Cache in " ++ path ++ " has version " ++ v ++ ", expected "
            ++ CACHE_VERSION ++ "." ++ readErrSuffix)), d1)
      | other =>
        (.error (.jsonParserException
          ("Cache in " ++ path ++ " has version " ++ showVal other
            ++ ", expected " ++ CACHE_VERSION ++ "." ++ readErrSuffix)), d1)
  else
    -- File does not exist: json.load is skipped and the version check runs
    -- on the current in-memory dict (the constructor only calls _read when
    -- the file exists, so this branch is not reached from __init__).
    let d1 := if truthyVal (lookupKey cache VERSION_STR) then cache
              else setKey VERSION_STR (.vstr CACHE_VERSION) cache
    match lookupKey d1 VERSION_STR with
    | some (.vstr v) =>
      if v == CACHE_VERSION then (.ok d1, d1)
      else (.error (.jsonParserException
        ("Cache in " ++ path ++ " has version " ++ v ++ ", expected "
          ++ CACHE_VERSION ++ "." ++ readErrSuffix)), d1)
    | other =>
      (.error (.jsonParserException
        ("Cache in " ++ path ++ " has version " ++ showVal other
          ++ ", expected " ++ CACHE_VERSION ++ "." ++ readErrSuffix)), d1)

/-- `ImageCache._remove_old_cache_and_files`: remove the backing file, then
every regular file in the backing file's directory whose name starts with
`eqn`. -/
def ImageCache.remove_old_cache_and_files (path : String) (fs : FS) : FS :=
  let fs1 : FS := ⟨fs.files.filter (fun f => !(f == path)), fs.content⟩
  let directory := let d := (splitPath path).1; if d == "" then "." else d
  ⟨fs1.files.filter (fun f =>
      !((splitPath f).1 == directory && "eqn".data.isPrefixOf (splitPath f).2.data)),
   fs1.content⟩

/-- `ImageCache.__init__(path, keep_old_cache)`: start from `{}` stamped
with the current version; if the backing file exists, `_read` it; on a
`JsonParserException` either re-raise (`keep_old_cache=True`) or delete the
old cache and image files (`keep_old_cache=False`) — in the latter case
`self.__cache` keeps whatever `_read` left in it. -/
def ImageCache.init (path : String) (keep_old_cache : Bool) (fs : FS) :
    Except PyErr ImageCache × FS :=
  let cache0 := setKey VERSION_STR (.vstr CACHE_VERSION) ([] : CacheDict)
  if fs.files.contains path then
    match ImageCache.read path fs cache0 with
    | (.ok d, _) => (.ok ⟨d, path⟩, fs)
    | (.error e, cAfter) =>
      if keep_old_cache then (.error e, fs)
      else (.ok ⟨cAfter, path⟩, ImageCache.remove_old_cache_and_files path fs)
  else (.ok ⟨cache0, path⟩, fs)

/-- The backslash rewriting `add_formula` applies to `file_path`:
`if '\\' in file_path: file_path = file_path.replace('\\', '/')`. -/
def pathRewrite (p : String) : String :=
  if p.data.contains '\\' then ⟨replace1 '\\' '/' p.data⟩ else p

/-- `ImageCache.add_formula(formula, pos, file_path, displaymath)`.  The
`isinstance(displaymath, bool)` check cannot fail in the typed embedding.
Returns the result and the post-state; the dict is only assigned on the
success path, so on an exception the state is unchanged. -/
def ImageCache.add_formula (fs : FS) (self : ImageCache) (formula : String)
    (pos : Pos) (file_path : String) (displaymath : Bool) :
    Except PyErr Unit × ImageCache :=
  if pos.isEmpty || formula == "" || file_path == "" then
    (.error (.valueError "the supplied arguments may not be empty/none"), self)
  else if isabsStr file_path then
    (.error (.osError "The file path to the image may NOT be an absolute path"), self)
  else
    let fp := pathRewrite file_path
    if !(fs.files.contains fp) &&
        !(fs.files.contains (joinPath (splitPath self.path).1 (splitPath fp).2)) then
      (.error (.osError ("cannot add " ++ fp ++ " to the cache: doesn't exist")), self)
    else
      (.ok (), { self with
        cache := setKey (normalize_formula formula)
          (.entry ⟨pos, fp, displaymath⟩) self.cache })

/-- `ImageCache.get_data_for(formula, displaymath)`: look the normalized
formula up; on a missing backing image file evict the entry and raise
`KeyError`; on a display-math mismatch raise `KeyError` without evicting.
If the key holds the version string (the reserved key itself is looked
up), the subscript `meta_data['path']` on a `str` raises `TypeError`. -/
def ImageCache.get_data_for (fs : FS) (self : ImageCache) (formula : String)
    (displaymath : Bool) : Except PyErr CacheEntry × ImageCache :=
  let f := normalize_formula formula
  match lookupKey self.cache f with
  | none => (.error (.keyError f), self)
  | some (.vstr _) =>
    (.error (.typeError "string indices must be integers"), self)
  | some (.entry meta_data) =>
    if !(fs.files.contains meta_data.path) then
      (.error (.keyError f), { self with cache := eraseKey f self.cache })
    else if !(meta_data.displaymath == displaymath) then
      (.error (.keyError f), self)
    else
      (.ok meta_data, self)

/-- `ImageCache.contains(formula, displaymath)`: call `get_data_for` and
catch `KeyError` only; any other exception propagates. -/
def ImageCache.contains (fs : FS) (self : ImageCache) (formula : String)
    (displaymath : Bool) : Except PyErr Bool × ImageCache :=
  match ImageCache.get_data_for fs self formula displaymath with
  | (.ok _, s) => (.ok true, s)
  | (.error (.keyError _), s) => (.ok false, s)
  | (.error e, s) => (.error e, s)


/-- Decidable equality of `Except` results, so that concrete runs of the
embedded methods can be checked by evaluation. -/
instance {ε α : Type} [DecidableEq ε] [DecidableEq α] : DecidableEq (Except ε α) := fun x y =>
  match x, y with
  | .ok a, .ok b =>
    match decEq a b with
    | .isTrue h => .isTrue (h ▸ rfl)
    | .isFalse h => .isFalse (fun hh => h (Except.ok.inj hh))
  | .error a, .error b =>
    match decEq a b with
    | .isTrue h => .isTrue (h ▸ rfl)
    | .isFalse h => .isFalse (fun hh => h (Except.error.inj hh))
  | .ok _, .error _ => .isFalse (fun hh => Except.noConfusion hh)
  | .error _, .ok _ => .isFalse (fun hh => Except.noConfusion hh)

/-- Does the dict map `k` to the version string (rather than to an entry or
to nothing)?  Exactly in this case `get_data_for` trips over
`meta_data['path']` applied to a `str`. -/
def isVstrAt (d : CacheDict) (k : String) : Bool :=
  match lookupKey d k with
  | some (.vstr _) => true
  | _ => false

/-! ## Dictionary lemmas -/

theorem lookupKey_nil (k : String) : lookupKey [] k = none := rfl

theorem lookupKey_cons (k' : String) (v' : CacheValue) (d : CacheDict) (k : String) :
    lookupKey ((k', v') :: d) k = if k' == k then some v' else lookupKey d k := by
  cases h : k' == k <;> simp [lookupKey, List.find?, h]

theorem lookupKey_setKey_self (d : CacheDict) (k : String) (v : CacheValue) :
    lookupKey (setKey k v d) k = some v := by
  induction d with
  | nil => simp [setKey, lookupKey, List.find?]
  | cons kv rest ih =>
    obtain ⟨k', v'⟩ := kv
    by_cases h : (k' == k) = true
    · simp [setKey, h, lookupKey_cons]
    · simp only [setKey, h, Bool.false_eq_true, if_false]
      rw [lookupKey_cons]
      simp [h, ih]

theorem lookupKey_setKey_ne (d : CacheDict) (k k' : String) (v : CacheValue)
    (h : ¬ k' = k) : lookupKey (setKey k v d) k' = lookupKey d k' := by
  have h2 : ¬ k = k' := fun hh => h hh.symm
  induction d with
  | nil =>
    have hb : (k == k') = false := by simpa using h2
    simp [setKey, lookupKey, List.find?, hb]
  | cons kv rest ih =>
    obtain ⟨k1, v1⟩ := kv
    by_cases h1 : (k1 == k) = true
    · have hk1 : k1 = k := by simpa using h1
      have hb : (k == k') = false := by simpa using h2
      have hb1 : (k1 == k') = false := by simpa [hk1] using h2
      simp [setKey, h1, lookupKey_cons, hb, hb1]
    · simp only [setKey, h1, Bool.false_eq_true, if_false]
      rw [lookupKey_cons, lookupKey_cons]
      simp [ih]

theorem length_eraseKey_of_mem (d : CacheDict) (k : String) (v : CacheValue)
    (h : lookupKey d k = some v) : (eraseKey k d).length + 1 = d.length := by
  induction d with
  | nil => simp [lookupKey, List.find?] at h
  | cons kv rest ih =>
    obtain ⟨k', v'⟩ := kv
    rw [lookupKey_cons] at h
    by_cases hk : (k' == k) = true
    · simp [eraseKey, List.eraseP_cons, hk]
    · simp only [hk, Bool.false_eq_true, if_false] at h
      have hrec := ih h
      simp only [eraseKey, List.eraseP_cons, hk, cond_false] at *
      simp only [List.length_cons]
      omega

/-! ## Claim theorems -/

/-- C5: `normalize_formula` replaces `\x7b\x7d` by a space, then tabs by
spaces, then collapses double spaces in a single (non-fixed-point) pass,
then strips; in particular `normalize("a  \x7b\x7d\tb") = "a  b"`, and a run
of four spaces collapses to two (not one), witnessing the single pass.
The function is total by construction. -/
theorem normalize_formula_pipeline :
    normalize_formula "a  \x7b\x7d\tb" = "a  b" ∧
    normalize_formula "a    b" = "a  b" := by
  constructor <;> decide

/-- C3: if the normalized key of `f` is present with an entry whose stored
image path does not exist, `get_data_for` raises `KeyError`, removes the
entry from the in-memory dict, and the size drops by exactly one. -/
theorem get_data_for_evicts_stale (fs : FS) (c : ImageCache) (f : String)
    (dm : Bool) (e : CacheEntry)
    (hl : lookupKey c.cache (normalize_formula f) = some (.entry e))
    (hnf : fs.files.contains e.path = false) :
    ImageCache.get_data_for fs c f dm =
      (.error (.keyError (normalize_formula f)),
        ⟨eraseKey (normalize_formula f) c.cache, c.path⟩) ∧
    ImageCache.len ⟨eraseKey (normalize_formula f) c.cache, c.path⟩ =
      ImageCache.len c - 1 := by
  have hnf' : ¬ e.path ∈ fs.files := by simpa using hnf
  constructor
  · simp [ImageCache.get_data_for, hl, hnf']
  · have h1 := length_eraseKey_of_mem c.cache (normalize_formula f) _ hl
    simp only [ImageCache.len]
    omega

/-- Witness for `get_data_for_evicts_stale` at a concrete input. -/
theorem get_data_for_evicts_stale_w :
    lookupKey [(VERSION_STR, CacheValue.vstr "2.0"),
        ("x", CacheValue.entry ⟨[("height", 1)], "img.png", false⟩)] (normalize_formula "x")
      = some (.entry ⟨[("height", 1)], "img.png", false⟩) ∧
    (FS.mk [] (fun _ => FileData.invalid)).files.contains "img.png" = false ∧
    ImageCache.get_data_for (FS.mk [] (fun _ => FileData.invalid))
      ⟨[(VERSION_STR, CacheValue.vstr "2.0"),
        ("x", CacheValue.entry ⟨[("height", 1)], "img.png", false⟩)], "gladtex.cache"⟩
      "x" false =
      (.error (.keyError (normalize_formula "x")),
        ⟨eraseKey (normalize_formula "x")
          [(VERSION_STR, CacheValue.vstr "2.0"),
           ("x", CacheValue.entry ⟨[("height", 1)], "img.png", false⟩)], "gladtex.cache"⟩) := by
  refine ⟨by decide, by decide, ?_⟩
  exact (get_data_for_evicts_stale (FS.mk [] (fun _ => FileData.invalid))
    ⟨[(VERSION_STR, CacheValue.vstr "2.0"),
      ("x", CacheValue.entry ⟨[("height", 1)], "img.png", false⟩)], "gladtex.cache"⟩
    "x" false ⟨[("height", 1)], "img.png", false⟩ (by decide) (by decide)).1

/-- C9: a lookup that fails only because of a display-math mismatch does
not evict: the state is returned unchanged, and the same lookup with the
stored flag succeeds on the unchanged state. -/
theorem get_data_for_mode_mismatch_keeps_entry (fs : FS) (c : ImageCache)
    (x : String) (e : CacheEntry)
    (hl : lookupKey c.cache (normalize_formula x) = some (.entry e))
    (hex : fs.files.contains e.path = true) :
    ImageCache.get_data_for fs c x (!e.displaymath) =
      (.error (.keyError (normalize_formula x)), c) ∧
    ImageCache.get_data_for fs c x e.displaymath = (.ok e, c) := by
  have hex' : e.path ∈ fs.files := by simpa using hex
  constructor
  · cases hdm : e.displaymath <;> simp [ImageCache.get_data_for, hl, hex', hdm]
  · simp [ImageCache.get_data_for, hl, hex']

/-- Witness for `get_data_for_mode_mismatch_keeps_entry`. -/
theorem get_data_for_mode_mismatch_keeps_entry_w :
    lookupKey [(VERSION_STR, CacheValue.vstr "2.0"),
        ("x", CacheValue.entry ⟨[("height", 1)], "img.png", false⟩)] (normalize_formula "x")
      = some (.entry ⟨[("height", 1)], "img.png", false⟩) ∧
    ImageCache.get_data_for (FS.mk ["img.png"] (fun _ => FileData.invalid))
      ⟨[(VERSION_STR, CacheValue.vstr "2.0"),
        ("x", CacheValue.entry ⟨[("height", 1)], "img.png", false⟩)], "gladtex.cache"⟩
      "x" true =
      (.error (.keyError (normalize_formula "x")),
        ⟨[(VERSION_STR, CacheValue.vstr "2.0"),
          ("x", CacheValue.entry ⟨[("height", 1)], "img.png", false⟩)], "gladtex.cache"⟩) ∧
    ImageCache.get_data_for (FS.mk ["img.png"] (fun _ => FileData.invalid))
      ⟨[(VERSION_STR, CacheValue.vstr "2.0"),
        ("x", CacheValue.entry ⟨[("height", 1)], "img.png", false⟩)], "gladtex.cache"⟩
      "x" false =
      (.ok ⟨[("height", 1)], "img.png", false⟩,
        ⟨[(VERSION_STR, CacheValue.vstr "2.0"),
          ("x", CacheValue.entry ⟨[("height", 1)], "img.png", false⟩)], "gladtex.cache"⟩) := by
  refine ⟨by decide, ?_, ?_⟩
  · exact (get_data_for_mode_mismatch_keeps_entry
      (FS.mk ["img.png"] (fun _ => FileData.invalid))
      ⟨[(VERSION_STR, CacheValue.vstr "2.0"),
        ("x", CacheValue.entry ⟨[("height", 1)], "img.png", false⟩)], "gladtex.cache"⟩
      "x" ⟨[("height", 1)], "img.png", false⟩ (by decide) (by decide)).1
  · exact (get_data_for_mode_mismatch_keeps_entry
      (FS.mk ["img.png"] (fun _ => FileData.invalid))
      ⟨[(VERSION_STR, CacheValue.vstr "2.0"),
        ("x", CacheValue.entry ⟨[("height", 1)], "img.png", false⟩)], "gladtex.cache"⟩
      "x" ⟨[("height", 1)], "img.png", false⟩ (by decide) (by decide)).2

/-- C7: after a successful `add_formula` with `displaymath=false` whose
stored image file exists, `get_data_for` with `displaymath=true` raises
`KeyError` even though the normalized key is present, and leaves the state
unchanged. -/
theorem get_display_mismatch_after_add (fs : FS) (c c' : ImageCache) (x : String)
    (p : Pos) (path1 : String) (e : CacheEntry)
    (hadd : ImageCache.add_formula fs c x p path1 false = (.ok (), c'))
    (hl : lookupKey c'.cache (normalize_formula x) = some (.entry e))
    (hex : fs.files.contains e.path = true) :
    ImageCache.get_data_for fs c' x true =
      (.error (.keyError (normalize_formula x)), c') := by
  obtain ⟨ep, epath, edm⟩ := e
  simp only [ImageCache.add_formula] at hadd
  split at hadd
  · exact absurd hadd (by simp)
  · split at hadd
    · exact absurd hadd (by simp)
    · split at hadd
      · exact absurd hadd (by simp)
      · have hc' : (⟨setKey (normalize_formula x)
            (.entry ⟨p, pathRewrite path1, false⟩) c.cache, c.path⟩ : ImageCache) = c' :=
          congrArg Prod.snd hadd
        subst hc'
        rw [lookupKey_setKey_self] at hl
        simp only [Option.some.injEq, CacheValue.entry.injEq, CacheEntry.mk.injEq] at hl
        obtain ⟨h1, h2, h3⟩ := hl
        subst h1; subst h2; subst h3
        have hex' : pathRewrite path1 ∈ fs.files := by simpa using hex
        simp [ImageCache.get_data_for, lookupKey_setKey_self, hex']

/-- Witness for `get_display_mismatch_after_add`. -/
theorem get_display_mismatch_after_add_w :
    ImageCache.add_formula (FS.mk ["img.png"] (fun _ => FileData.invalid))
      ⟨[(VERSION_STR, CacheValue.vstr "2.0")], "gladtex.cache"⟩
      "x" [("height", 1)] "img.png" false =
      (.ok (), ⟨[(VERSION_STR, CacheValue.vstr "2.0"),
        ("x", CacheValue.entry ⟨[("height", 1)], "img.png", false⟩)], "gladtex.cache"⟩) ∧
    ImageCache.get_data_for (FS.mk ["img.png"] (fun _ => FileData.invalid))
      ⟨[(VERSION_STR, CacheValue.vstr "2.0"),
        ("x", CacheValue.entry ⟨[("height", 1)], "img.png", false⟩)], "gladtex.cache"⟩
      "x" true =
      (.error (.keyError (normalize_formula "x")),
        ⟨[(VERSION_STR, CacheValue.vstr "2.0"),
          ("x", CacheValue.entry ⟨[("height", 1)], "img.png", false⟩)], "gladtex.cache"⟩) := by
  refine ⟨by decide, ?_⟩
  exact get_display_mismatch_after_add (FS.mk ["img.png"] (fun _ => FileData.invalid))
    ⟨[(VERSION_STR, CacheValue.vstr "2.0")], "gladtex.cache"⟩
    ⟨[(VERSION_STR, CacheValue.vstr "2.0"),
      ("x", CacheValue.entry ⟨[("height", 1)], "img.png", false⟩)], "gladtex.cache"⟩
    "x" [("height", 1)] "img.png" ⟨[("height", 1)], "img.png", false⟩
    (by decide) (by decide) (by decide)

/-- C10: `add_formula` accepts a relative path that exists only as its
filename joined with the cache file's directory, stores the original
(backslash-rewritten) path unchanged, and — the stored path not existing —
every subsequent `get_data_for` on the entry raises `KeyError` and evicts
it. -/
theorem add_fallback_then_get_evicts (fs : FS) (c : ImageCache) (f : String)
    (p : Pos) (path : String) (dm : Bool)
    (hp : p.isEmpty = false) (hf : (f == "") = false) (hpath : (path == "") = false)
    (habs : isabsStr path = false)
    (hmiss : fs.files.contains (pathRewrite path) = false)
    (hfall : fs.files.contains
      (joinPath (splitPath c.path).1 (splitPath (pathRewrite path)).2) = true) :
    ImageCache.add_formula fs c f p path dm =
      (.ok (), ⟨setKey (normalize_formula f)
        (.entry ⟨p, pathRewrite path, dm⟩) c.cache, c.path⟩) ∧
    ∀ dm' : Bool,
      ImageCache.get_data_for fs
        ⟨setKey (normalize_formula f) (.entry ⟨p, pathRewrite path, dm⟩) c.cache,
          c.path⟩ f dm' =
      (.error (.keyError (normalize_formula f)),
        ⟨eraseKey (normalize_formula f)
          (setKey (normalize_formula f) (.entry ⟨p, pathRewrite path, dm⟩) c.cache),
          c.path⟩) := by
  have hmiss' : ¬ pathRewrite path ∈ fs.files := by simpa using hmiss
  have hfall' : joinPath (splitPath c.path).1 (splitPath (pathRewrite path)).2
      ∈ fs.files := by simpa using hfall
  constructor
  · simp [ImageCache.add_formula, hp, hf, hpath, habs, hmiss', hfall']
  · intro dm'
    simp [ImageCache.get_data_for, lookupKey_setKey_self, hmiss']

/-- Witness for `add_fallback_then_get_evicts`: the image exists only next
to the cache file, not at the stored relative path. -/
theorem add_fallback_then_get_evicts_w :
    ImageCache.add_formula (FS.mk ["work/eqn1.png"] (fun _ => FileData.invalid))
      ⟨[(VERSION_STR, CacheValue.vstr "2.0")], "work/gladtex.cache"⟩
      "x" [("height", 1)] "img/eqn1.png" false =
      (.ok (), ⟨setKey (normalize_formula "x")
        (.entry ⟨[("height", 1)], pathRewrite "img/eqn1.png", false⟩)
        [(VERSION_STR, CacheValue.vstr "2.0")], "work/gladtex.cache"⟩) ∧
    ImageCache.get_data_for (FS.mk ["work/eqn1.png"] (fun _ => FileData.invalid))
      ⟨setKey (normalize_formula "x")
        (.entry ⟨[("height", 1)], pathRewrite "img/eqn1.png", false⟩)
        [(VERSION_STR, CacheValue.vstr "2.0")], "work/gladtex.cache"⟩ "x" false =
      (.error (.keyError (normalize_formula "x")),
        ⟨eraseKey (normalize_formula "x")
          (setKey (normalize_formula "x")
            (.entry ⟨[("height", 1)], pathRewrite "img/eqn1.png", false⟩)
            [(VERSION_STR, CacheValue.vstr "2.0")]), "work/gladtex.cache"⟩) := by
  have h := add_fallback_then_get_evicts
    (FS.mk ["work/eqn1.png"] (fun _ => FileData.invalid))
    ⟨[(VERSION_STR, CacheValue.vstr "2.0")], "work/gladtex.cache"⟩
    "x" [("height", 1)] "img/eqn1.png" false
    (by decide) (by decide) (by decide) (by decide) (by decide) (by decide)
  exact ⟨h.1, h.2 false⟩

/-- C6 counterexample: the absolute-path violation raises `OSError`, the
very same exception class the not-found failure of `add_formula` raises —
so the policy error is not programmatically distinct from the
I/O/not-found errors, contrary to the claim. -/
theorem add_policy_error_shares_class_with_not_found :
    (ImageCache.add_formula (FS.mk [] (fun _ => FileData.invalid))
      ⟨[(VERSION_STR, CacheValue.vstr "2.0")], "gladtex.cache"⟩
      "x" [("height", 1)] "/abs/img.png" false).1 =
      .error (.osError "The file path to the image may NOT be an absolute path") ∧
    (ImageCache.add_formula (FS.mk [] (fun _ => FileData.invalid))
      ⟨[(VERSION_STR, CacheValue.vstr "2.0")], "gladtex.cache"⟩
      "x" [("height", 1)] "missing.png" false).1 =
      .error (.osError "cannot add missing.png to the cache: doesn't exist") ∧
    PyErr.cls (.osError "The file path to the image may NOT be an absolute path") =
      PyErr.cls (.osError "cannot add missing.png to the cache: doesn't exist") := by
  refine ⟨by decide, by decide, rfl⟩

/-- C6 amended: `add_formula` with an absolute image path (and otherwise
non-empty arguments) fails with the absolute-path `OSError` and leaves the
in-memory dict exactly unchanged. -/
theorem add_absolute_path_rejected (fs : FS) (c : ImageCache) (f : String)
    (p : Pos) (path : String) (dm : Bool)
    (hf : (f == "") = false) (hp : p.isEmpty = false) (habs : isabsStr path = true) :
    ImageCache.add_formula fs c f p path dm =
      (.error (.osError "The file path to the image may NOT be an absolute path"), c) := by
  have hpath : (path == "") = false := by
    rcases hq : path == "" with _ | _
    · rfl
    · have hps : path = "" := by simpa using hq
      subst hps
      simp [isabsStr] at habs
  simp [ImageCache.add_formula, hf, hp, hpath, habs]

/-- Witness for `add_absolute_path_rejected`. -/
theorem add_absolute_path_rejected_w :
    ImageCache.add_formula (FS.mk [] (fun _ => FileData.invalid))
      ⟨[(VERSION_STR, CacheValue.vstr "2.0")], "gladtex.cache"⟩
      "y" [("height", 1)] "/abs/img.png" true =
      (.error (.osError "The file path to the image may NOT be an absolute path"),
        ⟨[(VERSION_STR, CacheValue.vstr "2.0")], "gladtex.cache"⟩) :=
  add_absolute_path_rejected (FS.mk [] (fun _ => FileData.invalid))
    ⟨[(VERSION_STR, CacheValue.vstr "2.0")], "gladtex.cache"⟩
    "y" [("height", 1)] "/abs/img.png" true (by decide) (by decide) (by decide)

/-- C8 counterexample: looking up the reserved version key makes
`get_data_for` subscript a `str`, raising `TypeError`; `contains` catches
only `KeyError`, so the error propagates to the caller — contrary to the
claim that `contains` never propagates an error. -/
theorem contains_propagates_type_error :
    ImageCache.contains (FS.mk [] (fun _ => FileData.invalid))
      ⟨[(VERSION_STR, CacheValue.vstr "2.0")], "gladtex.cache"⟩
      "GladTeX__cache__version" false =
      (.error (.typeError "string indices must be integers"),
        ⟨[(VERSION_STR, CacheValue.vstr "2.0")], "gladtex.cache"⟩) := by
  decide

/-- C8 amended: whenever the normalized key does not hold the version
string, `contains` returns `True` exactly when `get_data_for` succeeds and
`False` when it raises `KeyError`, never propagating an error, with the
same side effects on the state as `get_data_for`. -/
theorem contains_iff_get (fs : FS) (c : ImageCache) (f : String) (dm : Bool)
    (h : isVstrAt c.cache (normalize_formula f) = false) :
    ImageCache.contains fs c f dm =
      (match ImageCache.get_data_for fs c f dm with
       | (.ok _, s) => (.ok true, s)
       | (.error _, s) => (.ok false, s)) := by
  cases hl : lookupKey c.cache (normalize_formula f) with
  | none => simp [ImageCache.contains, ImageCache.get_data_for, hl]
  | some v =>
    cases v with
    | vstr s => simp [isVstrAt, hl] at h
    | entry e =>
      by_cases hex : e.path ∈ fs.files
      · by_cases hdm : e.displaymath = dm
        · simp [ImageCache.contains, ImageCache.get_data_for, hl, hex, hdm]
        · simp [ImageCache.contains, ImageCache.get_data_for, hl, hex, hdm]
      · simp [ImageCache.contains, ImageCache.get_data_for, hl, hex]

/-- Witness for `contains_iff_get`. -/
theorem contains_iff_get_w :
    isVstrAt [(VERSION_STR, CacheValue.vstr "2.0")] (normalize_formula "y") = false ∧
    ImageCache.contains (FS.mk [] (fun _ => FileData.invalid))
      ⟨[(VERSION_STR, CacheValue.vstr "2.0")], "gladtex.cache"⟩ "y" false =
      (match ImageCache.get_data_for (FS.mk [] (fun _ => FileData.invalid))
        ⟨[(VERSION_STR, CacheValue.vstr "2.0")], "gladtex.cache"⟩ "y" false with
       | (.ok _, s) => (.ok true, s)
       | (.error _, s) => (.ok false, s)) :=
  ⟨by decide, contains_iff_get (FS.mk [] (fun _ => FileData.invalid))
    ⟨[(VERSION_STR, CacheValue.vstr "2.0")], "gladtex.cache"⟩ "y" false (by decide)⟩

/-- C1: on a cache file whose stored version string `"1.0"` differs from
the current `"2.0"`, construction with `keep_old_cache=True` raises the
version-mismatch `JsonParserException`; with `keep_old_cache=False` the
backing file and the `eqn*` files in its directory are deleted, but —
because `_read` assigns the loaded dict to `self.__cache` before raising —
the resulting cache is NOT the promised fresh empty one: it still holds
the old entry (size 1, not 0) and the old version stamp `"1.0"`. -/
theorem init_version_mismatch_keeps_stale_dict :
    (ImageCache.init "d/gladtex.cache" true
      (FS.mk ["d/gladtex.cache", "d/eqn000.png", "d/other.txt"]
        (fun q => if q == "d/gladtex.cache" then
          FileData.json [(VERSION_STR, CacheValue.vstr "1.0"),
            ("x", CacheValue.entry ⟨[("height", 5)], "d/eqn000.png", false⟩)]
          else FileData.invalid))).1 =
      .error (.jsonParserException
        ("Cache in d/gladtex.cache has version 1.0, expected 2.0." ++ readErrSuffix)) ∧
    (ImageCache.init "d/gladtex.cache" false
      (FS.mk ["d/gladtex.cache", "d/eqn000.png", "d/other.txt"]
        (fun q => if q == "d/gladtex.cache" then
          FileData.json [(VERSION_STR, CacheValue.vstr "1.0"),
            ("x", CacheValue.entry ⟨[("height", 5)], "d/eqn000.png", false⟩)]
          else FileData.invalid))).1 =
      .ok ⟨[(VERSION_STR, CacheValue.vstr "1.0"),
        ("x", CacheValue.entry ⟨[("height", 5)], "d/eqn000.png", false⟩)],
        "d/gladtex.cache"⟩ ∧
    ((ImageCache.init "d/gladtex.cache" false
      (FS.mk ["d/gladtex.cache", "d/eqn000.png", "d/other.txt"]
        (fun q => if q == "d/gladtex.cache" then
          FileData.json [(VERSION_STR, CacheValue.vstr "1.0"),
            ("x", CacheValue.entry ⟨[("height", 5)], "d/eqn000.png", false⟩)]
          else FileData.invalid))).2).files = ["d/other.txt"] ∧
    ImageCache.len ⟨[(VERSION_STR, CacheValue.vstr "1.0"),
        ("x", CacheValue.entry ⟨[("height", 5)], "d/eqn000.png", false⟩)],
        "d/gladtex.cache"⟩ = 1 ∧
    lookupKey [(VERSION_STR, CacheValue.vstr "1.0"),
        ("x", CacheValue.entry ⟨[("height", 5)], "d/eqn000.png", false⟩)]
      VERSION_STR = some (.vstr "1.0") := by
  refine ⟨by decide, by decide, by decide, by decide, by decide⟩

/-- C2 counterexample: normalization is not idempotent — a run of three
spaces collapses to two in the first pass and to one in a second pass. -/
theorem normalize_formula_not_idem :
    ¬ (normalize_formula (normalize_formula "a   b") = normalize_formula "a   b") := by
  decide

/-- C4 counterexample: the round trip does not hold for every formula —
with the empty formula, `add_formula` itself fails with `ValueError`
(even with a non-empty position and an existing relative image path), so
no entry is ever stored or retrieved. -/
theorem round_trip_fails_on_empty_formula :
    ImageCache.add_formula (FS.mk ["img.png"] (fun _ => FileData.invalid))
      ⟨[(VERSION_STR, CacheValue.vstr "2.0")], "gladtex.cache"⟩
      "" [("height", 1)] "img.png" false =
      (.error (.valueError "the supplied arguments may not be empty/none"),
        ⟨[(VERSION_STR, CacheValue.vstr "2.0")], "gladtex.cache"⟩) := by
  decide

/-- After `write`, the backing path exists. -/
theorem write_contains_self (s : ImageCache) (fs : FS) :
    (ImageCache.write s fs).files.contains s.path = true := by
  by_cases hm : s.path ∈ fs.files
  · simp [ImageCache.write, hm]
  · simp [ImageCache.write, hm]

/-- `write` never removes files. -/
theorem write_preserves_file (s : ImageCache) (fs : FS) (q : String)
    (h : fs.files.contains q = true) :
    (ImageCache.write s fs).files.contains q = true := by
  have hq : q ∈ fs.files := by simpa using h
  by_cases hm : s.path ∈ fs.files
  · simp [ImageCache.write, hm, hq]
  · simp [ImageCache.write, hm, hq]

/-- `write` stores the serialized dict at the backing path. -/
theorem write_content_self (s : ImageCache) (fs : FS) :
    (ImageCache.write s fs).content s.path = .json s.cache := by
  simp [ImageCache.write]

/-- C4 amended: starting from a cache stamped with the current version, for
a non-empty formula whose normalized form is not the reserved version key,
a non-empty position, and an existing, relative, backslash-free image
path: `add_formula` succeeds and stores `(pos, path, displaymath)`;
re-opening a cache on the same backing path after `write` succeeds and
loads the same dict; and `get_data_for` on the reopened cache returns the
stored entry unchanged. -/
theorem round_trip (fs : FS) (c : ImageCache) (f : String) (p : Pos)
    (path : String) (dm : Bool)
    (hver : lookupKey c.cache VERSION_STR = some (.vstr CACHE_VERSION))
    (hf : (f == "") = false)
    (hfv : ¬ normalize_formula f = VERSION_STR)
    (hp : p.isEmpty = false)
    (hpath : (path == "") = false)
    (habs : isabsStr path = false)
    (hnb : path.data.contains '\\' = false)
    (hex : fs.files.contains path = true) :
    ImageCache.add_formula fs c f p path dm =
      (.ok (), ⟨setKey (normalize_formula f) (.entry ⟨p, path, dm⟩) c.cache, c.path⟩) ∧
    ImageCache.init c.path true
      (ImageCache.write
        ⟨setKey (normalize_formula f) (.entry ⟨p, path, dm⟩) c.cache, c.path⟩ fs) =
      (.ok ⟨setKey (normalize_formula f) (.entry ⟨p, path, dm⟩) c.cache, c.path⟩,
        ImageCache.write
          ⟨setKey (normalize_formula f) (.entry ⟨p, path, dm⟩) c.cache, c.path⟩ fs) ∧
    ImageCache.get_data_for
      (ImageCache.write
        ⟨setKey (normalize_formula f) (.entry ⟨p, path, dm⟩) c.cache, c.path⟩ fs)
      ⟨setKey (normalize_formula f) (.entry ⟨p, path, dm⟩) c.cache, c.path⟩ f dm =
      (.ok ⟨p, path, dm⟩,
        ⟨setKey (normalize_formula f) (.entry ⟨p, path, dm⟩) c.cache, c.path⟩) := by
  have hpr : pathRewrite path = path := by
    unfold pathRewrite
    rw [hnb]
    simp
  have hex' : path ∈ fs.files := by simpa using hex
  have hlver : lookupKey
      (setKey (normalize_formula f) (.entry ⟨p, path, dm⟩) c.cache) VERSION_STR =
      some (.vstr CACHE_VERSION) := by
    rw [lookupKey_setKey_ne _ _ _ _ (fun hh => hfv hh.symm)]
    exact hver
  refine ⟨?_, ?_, ?_⟩
  · simp [ImageCache.add_formula, hp, hf, hpath, habs, hpr, hex']
  · have hc1 : (ImageCache.write
        ⟨setKey (normalize_formula f) (.entry ⟨p, path, dm⟩) c.cache, c.path⟩
        fs).files.contains c.path = true :=
      write_contains_self _ fs
    have hc2 : (ImageCache.write
        ⟨setKey (normalize_formula f) (.entry ⟨p, path, dm⟩) c.cache, c.path⟩
        fs).content c.path =
        .json (setKey (normalize_formula f) (.entry ⟨p, path, dm⟩) c.cache) :=
      write_content_self _ fs
    simp only [ImageCache.init, ImageCache.read, hc1, hc2, if_true]
    simp [hlver, truthyVal, CACHE_VERSION]
  · have hc3 := write_preserves_file
      ⟨setKey (normalize_formula f) (.entry ⟨p, path, dm⟩) c.cache, c.path⟩ fs path hex
    have hc3' : path ∈ (ImageCache.write
        ⟨setKey (normalize_formula f) (.entry ⟨p, path, dm⟩) c.cache, c.path⟩ fs).files := by
      simpa using hc3
    simp [ImageCache.get_data_for, lookupKey_setKey_self, hc3']

/-- Witness for `round_trip`: the retrieval half of the round trip at a
concrete input, obtained by applying the theorem. -/
theorem round_trip_w :
    ImageCache.get_data_for
      (ImageCache.write
        ⟨setKey (normalize_formula "x")
          (.entry ⟨[("height", 1)], "img.png", true⟩)
          [(VERSION_STR, CacheValue.vstr "2.0")], "gladtex.cache"⟩
        (FS.mk ["img.png"] (fun _ => FileData.invalid)))
      ⟨setKey (normalize_formula "x")
        (.entry ⟨[("height", 1)], "img.png", true⟩)
        [(VERSION_STR, CacheValue.vstr "2.0")], "gladtex.cache"⟩ "x" true =
      (.ok ⟨[("height", 1)], "img.png", true⟩,
        ⟨setKey (normalize_formula "x")
          (.entry ⟨[("height", 1)], "img.png", true⟩)
          [(VERSION_STR, CacheValue.vstr "2.0")], "gladtex.cache"⟩) :=
  (round_trip (FS.mk ["img.png"] (fun _ => FileData.invalid))
    ⟨[(VERSION_STR, CacheValue.vstr "2.0")], "gladtex.cache"⟩
    "x" [("height", 1)] "img.png" true
    (by decide) (by decide) (by decide) (by decide) (by decide) (by decide)
    (by decide) (by decide)).2.2

/-! ## Lemmas about the normalizer -/

theorem replace2_cons2 (a b r x y : Char) (l : List Char) :
    replace2 a b r (x :: y :: l) =
      if x == a && y == b then r :: replace2 a b r l
      else x :: replace2 a b r (y :: l) := rfl

theorem hasPair_cons2 (a b x y : Char) (l : List Char) :
    hasPair a b (x :: y :: l) = ((x == a && y == b) || hasPair a b (y :: l)) := rfl

/-- Head-based reformulation of `hasPair` on a cons. -/
theorem hasPair_cons (a b c : Char) (l : List Char) :
    hasPair a b (c :: l) = ((c == a && l.head? == some b) || hasPair a b l) := by
  cases l with
  | nil => simp [hasPair]
  | cons y rest => rw [hasPair_cons2]; simp

theorem hasPair_tail (a b c : Char) (l : List Char)
    (h : hasPair a b (c :: l) = false) : hasPair a b l = false := by
  rw [hasPair_cons] at h
  simp only [Bool.or_eq_false_iff] at h
  exact h.2

theorem hasPair_cons_of (a b c : Char) (l : List Char) (h : hasPair a b l = true) :
    hasPair a b (c :: l) = true := by
  rw [hasPair_cons]
  simp [h]

theorem hasPair_append_left (a b : Char) :
    ∀ (s t : List Char), hasPair a b s = true → hasPair a b (s ++ t) = true
  | [], _, h => by simp [hasPair] at h
  | [_], _, h => by simp [hasPair] at h
  | x :: y :: rest, t, h => by
    rw [hasPair_cons2] at h
    rw [List.cons_append, List.cons_append, hasPair_cons2]
    simp only [Bool.or_eq_true] at h ⊢
    rcases h with h1 | h2
    · exact Or.inl h1
    · right
      have hrec := hasPair_append_left a b (y :: rest) t h2
      simpa using hrec

theorem hasPair_append_right (a b : Char) :
    ∀ (t s : List Char), hasPair a b s = true → hasPair a b (t ++ s) = true
  | [], _, h => by simpa using h
  | c :: t, s, h => by
    rw [List.cons_append]
    exact hasPair_cons_of a b c (t ++ s) (hasPair_append_right a b t s h)

/-- The part of a list that `dropWhile` keeps is a suffix. -/
theorem exists_append_dropWhile (p : Char → Bool) :
    ∀ l : List Char, ∃ t, t ++ l.dropWhile p = l
  | [] => ⟨[], rfl⟩
  | c :: l => by
    by_cases hc : p c = true
    · obtain ⟨t, ht⟩ := exists_append_dropWhile p l
      exact ⟨c :: t, by simp [List.dropWhile_cons, hc, ht]⟩
    · have hc' : p c = false := by
        cases hcc : p c
        · rfl
        · exact absurd hcc hc
      exact ⟨[], by simp [List.dropWhile_cons, hc']⟩

/-- Stripping yields an infix of the original list. -/
theorem strip_append (q : List Char) : ∃ u v, u ++ lstripL (rstripL q) ++ v = q := by
  obtain ⟨t1, ht1⟩ := exists_append_dropWhile isPyWs q.reverse
  have hr : rstripL q ++ t1.reverse = q := by
    have hrev := congrArg List.reverse ht1
    simpa [rstripL, List.reverse_append] using hrev
  obtain ⟨t2, ht2⟩ := exists_append_dropWhile isPyWs (rstripL q)
  refine ⟨t2, t1.reverse, ?_⟩
  simp only [lstripL]
  rw [ht2]
  exact hr

theorem hasPair_strip_transport (a b : Char) (q : List Char)
    (h : hasPair a b q = false) : hasPair a b (lstripL (rstripL q)) = false := by
  obtain ⟨u, v, huv⟩ := strip_append q
  cases hc : hasPair a b (lstripL (rstripL q)) with
  | false => rfl
  | true =>
    have h1 := hasPair_append_left a b _ v hc
    have h2 := hasPair_append_right a b u _ h1
    rw [← List.append_assoc, huv] at h2
    rw [h2] at h
    exact absurd h (by simp)

theorem mem_strip_transport (c : Char) (q : List Char)
    (h : c ∈ lstripL (rstripL q)) : c ∈ q := by
  obtain ⟨u, v, huv⟩ := strip_append q
  rw [← huv]
  simp [h]

/-- A list containing no occurrence of the two-character pattern is left
unchanged by the replacement. -/
theorem replace2_of_not_hasPair (a b r : Char) :
    ∀ l, hasPair a b l = false → replace2 a b r l = l
  | [], _ => rfl
  | [_], _ => rfl
  | x :: y :: rest, h => by
    rw [hasPair_cons2] at h
    simp only [Bool.or_eq_false_iff] at h
    obtain ⟨h1, h2⟩ := h
    rw [replace2_cons2, h1]
    simp only [Bool.false_eq_true, if_false, List.cons.injEq]
    exact ⟨trivial, replace2_of_not_hasPair a b r (y :: rest) h2⟩

/-- A list not containing the single-character pattern is left unchanged. -/
theorem replace1_of_not_mem (p r : Char) (l : List Char) (h : ¬ p ∈ l) :
    replace1 p r l = l := by
  induction l with
  | nil => rfl
  | cons c cs ih =>
    have hc : ¬ p = c := fun hh => h (by simp [hh])
    have hcs : ¬ p ∈ cs := fun hh => h (by simp [hh])
    have hcb : (c == p) = false := by
      cases hcc : c == p
      · rfl
      · exact absurd (by simpa using hcc : c = p) (fun hh => hc hh.symm)
    simp only [replace1, List.map_cons, hcb, Bool.false_eq_true, if_false,
      List.cons.injEq]
    exact ⟨trivial, ih hcs⟩

/-- The head of the replaced list is the original head or the replacement
character. -/
theorem replace2_head (a b r : Char) :
    ∀ l : List Char, (replace2 a b r l).head? = l.head? ∨
      (replace2 a b r l).head? = some r
  | [] => Or.inl rfl
  | [_] => Or.inl rfl
  | x :: y :: rest => by
    rw [replace2_cons2]
    by_cases h : (x == a && y == b) = true
    · rw [h]
      simp
    · have hb : (x == a && y == b) = false := by
        cases hh : (x == a && y == b)
        · rfl
        · exact absurd hh h
      rw [hb]
      simp

/-- After replacing the pattern `a b` by `r` (with `r` different from both
pattern characters), the pattern no longer occurs. -/
theorem hasPair_replace2_self (a b r : Char) (hra : ¬ r = a) (hrb : ¬ r = b) :
    ∀ l, hasPair a b (replace2 a b r l) = false
  | [] => rfl
  | [_] => rfl
  | x :: y :: rest => by
    by_cases h : (x == a && y == b) = true
    · simp only [replace2_cons2, h, if_true]
      rw [hasPair_cons]
      have hr : (r == a) = false := by simpa using hra
      have ih := hasPair_replace2_self a b r hra hrb rest
      simp [hr, ih]
    · have hb : (x == a && y == b) = false := by
        cases hh : (x == a && y == b)
        · rfl
        · exact absurd hh h
      simp only [replace2_cons2, hb, Bool.false_eq_true, if_false]
      rw [hasPair_cons]
      have ih := hasPair_replace2_self a b r hra hrb (y :: rest)
      rcases replace2_head a b r (y :: rest) with hh | hh
      · simp only [List.head?_cons] at hh
        rw [hh]
        simp only [ih, Bool.or_false]
        by_cases hxa : (x == a) = true
        · have hyb : (y == b) = false := by
            cases hyy : (y == b)
            · rfl
            · rw [hxa, hyy] at hb
              simp at hb
          simp [hyb]
        · have hxa' : (x == a) = false := by
            cases hxx : (x == a)
            · rfl
            · exact absurd hxx hxa
          simp [hxa']
      · rw [hh]
        have hrb' : (r == b) = false := by simpa using hrb
        simp [ih, hrb']

/-- Replacing a disjoint two-character pattern cannot create an `a b` pair
when the replacement character is neither `a` nor `b`. -/
theorem hasPair_replace2_preserve (a b r a' b' : Char)
    (hra : ¬ r = a') (hrb : ¬ r = b') :
    ∀ l, hasPair a' b' l = false → hasPair a' b' (replace2 a b r l) = false
  | [], _ => rfl
  | [_], _ => rfl
  | x :: y :: rest, h => by
    rw [hasPair_cons2] at h
    simp only [Bool.or_eq_false_iff] at h
    obtain ⟨h1, h2⟩ := h
    by_cases hm : (x == a && y == b) = true
    · simp only [replace2_cons2, hm, if_true]
      rw [hasPair_cons]
      have hr : (r == a') = false := by simpa using hra
      have hrest : hasPair a' b' rest = false := hasPair_tail a' b' y rest h2
      have ih := hasPair_replace2_preserve a b r a' b' hra hrb rest hrest
      simp [hr, ih]
    · have hmb : (x == a && y == b) = false := by
        cases hh : (x == a && y == b)
        · rfl
        · exact absurd hh hm
      simp only [replace2_cons2, hmb, Bool.false_eq_true, if_false]
      rw [hasPair_cons]
      have ih := hasPair_replace2_preserve a b r a' b' hra hrb (y :: rest) h2
      rcases replace2_head a b r (y :: rest) with hh | hh
      · simp only [List.head?_cons] at hh
        rw [hh]
        simp only [ih, Bool.or_false]
        by_cases hxa : (x == a') = true
        · have hyb : (y == b') = false := by
            cases hyy : (y == b')
            · rfl
            · rw [hxa, hyy] at h1
              simp at h1
          simp [hyb]
        · have hxa' : (x == a') = false := by
            cases hxx : (x == a')
            · rfl
            · exact absurd hxx hxa
          simp [hxa']
      · rw [hh]
        have hrb' : (r == b') = false := by simpa using hrb
        simp [ih, hrb']

/-- Mapping a function that fixes the pattern characters `a`, `b`
(up to `==`) neither creates nor destroys an `a b` pair. -/
theorem hasPair_map (a b : Char) (f : Char → Char)
    (hfa : ∀ c, (f c == a) = (c == a)) (hfb : ∀ c, (f c == b) = (c == b)) :
    ∀ l : List Char, hasPair a b (l.map f) = hasPair a b l
  | [] => rfl
  | [x] => rfl
  | x :: y :: rest => by
    simp only [List.map_cons]
    rw [hasPair_cons2, hasPair_cons2, hfa x, hfb y]
    have ih := hasPair_map a b f hfa hfb (y :: rest)
    simp only [List.map_cons] at ih
    rw [ih]

/-- After replacing every occurrence of `p` by `r ≠ p`, `p` is gone. -/
theorem not_mem_replace1 (p r : Char) (hrp : ¬ r = p) (l : List Char) :
    ¬ p ∈ replace1 p r l := by
  intro h
  rcases List.mem_map.mp h with ⟨c, _, hfc⟩
  by_cases hcp : (c == p) = true
  · simp only [hcp, if_true] at hfc
    exact hrp hfc
  · have hcp' : (c == p) = false := by
      cases hcc : c == p
      · rfl
      · exact absurd hcc hcp
    simp only [hcp', Bool.false_eq_true, if_false] at hfc
    rw [hfc] at hcp'
    simp at hcp'

/-- Characters of the replaced list come from the original list or are the
replacement character. -/
theorem mem_replace2 (a b r c : Char) :
    ∀ l, c ∈ replace2 a b r l → c ∈ l ∨ c = r
  | [], h => Or.inl h
  | [_], h => Or.inl h
  | x :: y :: rest, h => by
    by_cases hm : (x == a && y == b) = true
    · rw [replace2_cons2] at h
      simp only [hm, if_true] at h
      rcases List.mem_cons.mp h with h1 | h2
      · exact Or.inr h1
      · rcases mem_replace2 a b r c rest h2 with h3 | h3
        · exact Or.inl (by simp [h3])
        · exact Or.inr h3
    · have hmb : (x == a && y == b) = false := by
        cases hh : (x == a && y == b)
        · rfl
        · exact absurd hh hm
      rw [replace2_cons2] at h
      simp only [hmb, Bool.false_eq_true, if_false] at h
      rcases List.mem_cons.mp h with h1 | h2
      · exact Or.inl (by simp [h1])
      · rcases mem_replace2 a b r c (y :: rest) h2 with h3 | h3
        · exact Or.inl (List.mem_cons_of_mem x h3)
        · exact Or.inr h3

/-- The head surviving a `dropWhile` fails the predicate. -/
theorem dropWhile_head_not (p : Char → Bool) :
    ∀ (l : List Char) (c : Char), (l.dropWhile p).head? = some c → p c = false
  | [], _, h => by simp at h
  | x :: xs, c, h => by
    by_cases hx : p x = true
    · rw [List.dropWhile_cons] at h
      simp only [hx, if_true] at h
      exact dropWhile_head_not p xs c h
    · have hx' : p x = false := by
        cases hxx : p x
        · rfl
        · exact absurd hxx hx
      rw [List.dropWhile_cons] at h
      simp only [hx', Bool.false_eq_true, if_false, List.head?_cons,
        Option.some.injEq] at h
      rw [← h]
      exact hx'

/-- A list whose head (if any) fails the predicate is untouched by
`dropWhile`. -/
theorem dropWhile_of_head_not (p : Char → Bool) (l : List Char)
    (h : ∀ c, l.head? = some c → p c = false) : l.dropWhile p = l := by
  cases l with
  | nil => rfl
  | cons x xs =>
    have hx := h x rfl
    rw [List.dropWhile_cons]
    simp [hx]

theorem dropWhile_idem (p : Char → Bool) (l : List Char) :
    (l.dropWhile p).dropWhile p = l.dropWhile p :=
  dropWhile_of_head_not p _ (fun c hc => dropWhile_head_not p l c hc)

/-- Stripping an already stripped list changes nothing. -/
theorem strip_strip (w : List Char) :
    lstripL (rstripL (lstripL (rstripL w))) = lstripL (rstripL w) := by
  have hDz : (lstripL (rstripL w)).reverse.dropWhile isPyWs =
      (lstripL (rstripL w)).reverse := by
    apply dropWhile_of_head_not
    intro c hc
    rw [List.head?_reverse] at hc
    obtain ⟨t2, ht2⟩ := exists_append_dropWhile isPyWs (rstripL w)
    have hzu : t2 ++ lstripL (rstripL w) = rstripL w := ht2
    have hzne : lstripL (rstripL w) ≠ [] := by
      intro hnil
      rw [hnil] at hc
      simp at hc
    have h1 : (rstripL w).getLast? = (lstripL (rstripL w)).getLast? := by
      nth_rewrite 1 [← hzu]
      exact List.getLast?_append_of_ne_nil t2 hzne
    have h2 : (rstripL w).getLast? = (w.reverse.dropWhile isPyWs).head? := by
      rw [rstripL, ← List.head?_reverse, List.reverse_reverse]
    have h3 : (w.reverse.dropWhile isPyWs).head? = some c := by
      rw [← h2, h1, hc]
    exact dropWhile_head_not isPyWs w.reverse c h3
  have h4 : rstripL (lstripL (rstripL w)) = lstripL (rstripL w) := by
    rw [rstripL, hDz, List.reverse_reverse]
  rw [h4]
  simp only [lstripL]
  exact dropWhile_idem isPyWs (rstripL w)

/-- C2 amended: normalization is idempotent exactly on inputs whose
normalized form contains no two adjacent spaces (the double-space collapse
is a single pass, so a run of three or more spaces survives one
application and shrinks again under a second). -/
theorem normalize_idem_of_no_double_space (s : String)
    (h : hasPair ' ' ' ' (normalize_formula s).data = false) :
    normalize_formula (normalize_formula s) = normalize_formula s := by
  have h' : hasPair ' ' ' ' (normalizeL s.data) = false := h
  show (⟨normalizeL (normalizeL s.data)⟩ : String) = ⟨normalizeL s.data⟩
  refine congrArg _ ?_
  have hz : normalizeL s.data =
      lstripL (rstripL (replace2 ' ' ' ' ' '
        (replace1 '\t' ' ' (replace2 '\x7b' '\x7d' ' ' s.data)))) := rfl
  have hbrace1 : hasPair '\x7b' '\x7d' (replace2 '\x7b' '\x7d' ' ' s.data) = false :=
    hasPair_replace2_self '\x7b' '\x7d' ' ' (by decide) (by decide) s.data
  have hbrace2 : hasPair '\x7b' '\x7d'
      (replace1 '\t' ' ' (replace2 '\x7b' '\x7d' ' ' s.data)) = false := by
    have hfa : ∀ c : Char, ((if c == '\t' then ' ' else c) == '\x7b') = (c == '\x7b') := by
      intro c
      by_cases hc : (c == '\t') = true
      · have hct : c = '\t' := by simpa using hc
        subst hct
        decide
      · have hc' : (c == '\t') = false := by
          cases hcc : c == '\t'
          · rfl
          · exact absurd hcc hc
        simp [hc']
    have hfb : ∀ c : Char, ((if c == '\t' then ' ' else c) == '\x7d') = (c == '\x7d') := by
      intro c
      by_cases hc : (c == '\t') = true
      · have hct : c = '\t' := by simpa using hc
        subst hct
        decide
      · have hc' : (c == '\t') = false := by
          cases hcc : c == '\t'
          · rfl
          · exact absurd hcc hc
        simp [hc']
    have hm := hasPair_map '\x7b' '\x7d' (fun c => if c == '\t' then ' ' else c)
      hfa hfb (replace2 '\x7b' '\x7d' ' ' s.data)
    calc hasPair '\x7b' '\x7d' (replace1 '\t' ' ' (replace2 '\x7b' '\x7d' ' ' s.data))
        = hasPair '\x7b' '\x7d'
            ((replace2 '\x7b' '\x7d' ' ' s.data).map
              (fun c => if c == '\t' then ' ' else c)) := rfl
      _ = hasPair '\x7b' '\x7d' (replace2 '\x7b' '\x7d' ' ' s.data) := hm
      _ = false := hbrace1
  have hbrace3 : hasPair '\x7b' '\x7d'
      (replace2 ' ' ' ' ' ' (replace1 '\t' ' ' (replace2 '\x7b' '\x7d' ' ' s.data)))
      = false :=
    hasPair_replace2_preserve ' ' ' ' ' ' '\x7b' '\x7d' (by decide) (by decide) _ hbrace2
  have hbracez : hasPair '\x7b' '\x7d' (normalizeL s.data) = false := by
    rw [hz]
    exact hasPair_strip_transport '\x7b' '\x7d' _ hbrace3
  have htab2 : ¬ '\t' ∈ replace1 '\t' ' ' (replace2 '\x7b' '\x7d' ' ' s.data) :=
    not_mem_replace1 '\t' ' ' (by decide) _
  have htab3 : ¬ '\t' ∈ replace2 ' ' ' ' ' '
      (replace1 '\t' ' ' (replace2 '\x7b' '\x7d' ' ' s.data)) := by
    intro hm
    rcases mem_replace2 ' ' ' ' ' ' '\t' _ hm with h1 | h1
    · exact htab2 h1
    · exact absurd h1 (by decide)
  have htabz : ¬ '\t' ∈ normalizeL s.data := by
    rw [hz]
    intro hm
    exact htab3 (mem_strip_transport '\t' _ hm)
  show lstripL (rstripL (replace2 ' ' ' ' ' ' (replace1 '\t' ' '
    (replace2 '\x7b' '\x7d' ' ' (normalizeL s.data))))) = normalizeL s.data
  rw [replace2_of_not_hasPair '\x7b' '\x7d' ' ' _ hbracez]
  rw [replace1_of_not_mem '\t' ' ' _ htabz]
  rw [replace2_of_not_hasPair ' ' ' ' ' ' _ h']
  rw [hz]
  exact strip_strip _

/-- Witness for `normalize_idem_of_no_double_space`. -/
theorem normalize_idem_of_no_double_space_w :
    hasPair ' ' ' ' (normalize_formula "a b").data = false ∧
    normalize_formula (normalize_formula "a b") = normalize_formula "a b" :=
  ⟨by decide, normalize_idem_of_no_double_space "a b" (by decide)⟩
